import Mathlib

/-
Shallow embedding of the colormap resampling engine of `spezold/fancy_barchart`
(`src/fancy_barchart/colormaps.py` and `src/fancy_barchart/util.py`).

Modelling choices:
* Floating-point channel values are modelled as rationals (exact arithmetic).
* The external CIELAB conversions (`skimage.color.rgb2lab` / `lab2rgb`) are not
  part of the repository; they are a parameter pair `ColorConv`, applied
  row-wise.  The identity pair `idConv` is the module's own documented fallback
  (`rgb2lab = lab2rgb = lambda img: img` when the import fails).
* Python's insertion-ordered `dict[int, int]` is an association list iterated
  in order; pair indices and step counts are natural numbers.
* `resampled` raises `ValueError` at three distinct sites (`max()` on an empty
  dict, the explicit palette-size check, `np.vstack` on an empty list); the
  embedding returns `Except ResampleError` with one tag per site.
* The matplotlib colormap lookup and the `ListedColormap` type check at the top
  of `resampled` are elided: `ColorPairs.map` is the already-resolved color
  list of a listed colormap.
-/

namespace FancyBarchart

/-- RGB color: `Color = tuple[float, float, float]`. -/
abbrev Color : Type := ℚ × ℚ × ℚ

/-- The external color-space conversion pair (`rgb2lab` / `lab2rgb`), applied
row-wise to color arrays. -/
structure ColorConv where
  rgb2lab : Color → Color
  lab2rgb : Color → Color

/-- Fallback when `skimage.color` cannot be imported:
`rgb2lab = lab2rgb = lambda img: img`. -/
def idConv : ColorConv := ⟨id, id⟩

/-- Python's `np.clip(x, 0, 1)` on one channel. -/
def clip01 (x : ℚ) : ℚ := min (max x 0) 1

/-- Python's `np.clip(·, 0, 1)` on one RGB row. -/
def clipColor (c : Color) : Color := (clip01 c.1, clip01 c.2.1, clip01 c.2.2)

/-- All three channels within 0…1 (the data-model constraint on `Color`). -/
abbrev inRange (c : Color) : Prop :=
  (0 ≤ c.1 ∧ c.1 ≤ 1) ∧ (0 ≤ c.2.1 ∧ c.2.1 ≤ 1) ∧ (0 ≤ c.2.2 ∧ c.2.2 ≤ 1)

/-- Numpy's `np.linspace(a, b, num)` on 3-vectors: `num` evenly spaced points from `a`
to `b` (both endpoints included when `num ≥ 2`, `[a]` when `num = 1`, `[]` when
`num = 0`). -/
def linspace (a b : Color) (num : Nat) : List Color :=
  if num ≤ 1 then (List.range num).map (fun _ => a)
  else (List.range num).map (fun (i : Nat) => a + ((i : ℚ) / ((num : ℚ) - 1)) • (b - a))

/-- Source `colormaps.gradient`: interpolate from `rgb1` to `rgb2` over `steps` in
CIELAB space, return the corresponding `steps×3` RGB array, clipped into 0…1:
`np.clip(lab2rgb(np.linspace(lab(rgb1), lab(rgb2), steps)), 0, 1)`. -/
def gradient (cv : ColorConv) (rgb1 rgb2 : Color) (steps : Nat) : List Color :=
  (linspace (cv.rgb2lab rgb1) (cv.rgb2lab rgb2) steps).map (fun c => clipColor (cv.lab2rgb c))

/-- Source `util.alternate`: `([a, b] * ((num + 1) // 2))[:num]`. -/
def alternate (a b : α) (num : Nat) : List α :=
  ((List.replicate ((num + 1) / 2) [a, b]).flatten).take num

/-- Source `colormaps.hatch`: alternate `rgb1` and `rgb2`, return the `steps×3` array
(no color-space conversion). -/
def hatch (rgb1 rgb2 : Color) (steps : Nat) : List Color :=
  alternate rgb1 rgb2 steps

/-- Source `colormaps.Style`: interpolation strategy for color pairs. -/
inductive Style where
  | GRADIENT
  | HATCH
deriving DecidableEq

/-- The expansion function bound to each `Style` member (`style.value`). -/
def Style.value : Style → ColorConv → Color → Color → Nat → List Color
  | .GRADIENT => gradient
  | .HATCH => fun _ => hatch

/-- Source `colormaps.Target`: target color (already resolved to an RGB tuple, as by
`matplotlib.colors.to_rgb`) and opacity. -/
structure Target where
  color : Color
  opacity : ℚ

/-- Matplotlib's `to_rgb("white")`, the default `Target.color`. -/
def white : Color := (1, 1, 1)

/-- Source `colormaps.unpaired_target`: per source row `c`, the actual target
`rgb((1 - opacity) * lab(c) + opacity * lab(rgb2))`, where `rgb` clips into
0…1 after converting back. -/
def unpaired_target (cv : ColorConv) (rgb1 : List Color) (rgb2 : Color) (opacity : ℚ) :
    List Color :=
  rgb1.map (fun c => clipColor (cv.lab2rgb ((1 - opacity) • cv.rgb2lab c + opacity • cv.rgb2lab rgb2)))

/-- Source `colormaps.paired`: produce the target color of every source color, then
interleave (`result[0::2] = colors`, `result[1::2] = paired_colors`), a 2N×3
array. -/
def paired (cv : ColorConv) (colors : List Color) (target : Target) : List Color :=
  let paired_colors := unpaired_target cv colors target.color target.opacity
  (colors.zip paired_colors).flatMap (fun p => [p.1, p.2])

/-- Source `colormaps.ColorPairs`: `map` is the resolved `ListedColormap.colors` list;
`unpaired` as in the source (pair each color against the target if set). -/
structure ColorPairs where
  map : List Color
  unpaired : Option Target

/-- The `steps` argument of `resampled`: a positional `list[int]` or an
insertion-ordered index-keyed `dict[int, int]`. -/
inductive StepSpec where
  | list (steps : List Nat)
  | dict (entries : List (Nat × Nat))

/-- Slice `xs[0::2]`. -/
def evens : List α → List α
  | [] => []
  | [x] => [x]
  | x :: _ :: rest => x :: evens rest

/-- Slice `xs[1::2]`. -/
def odds : List α → List α
  | [] => []
  | [_] => []
  | _ :: y :: rest => y :: odds rest

/-- The three `ValueError` raise sites of `resampled`, by origin: `max()` on an
empty dict, the explicit palette-size check, `np.vstack` on an empty list. -/
inductive ResampleError where
  | emptyMaxArg
  | insufficientPalette
  | emptyVstack
deriving DecidableEq

deriving instance DecidableEq for Except

/-- Stand-in for Python's in-range negative-free list indexing; never reached
by `resampled` (the palette-size check bounds every index used). -/
def dfltColor : Color := (0, 0, 0)

/-- The chunk comprehension of `resampled`:
`[f(c1, c2, s) for c1, c2, s in zip(colors[::2], colors[1::2], steps) if s != 0]`. -/
def chunksFor (f : Color → Color → Nat → List Color) (colors : List Color)
    (steps : List Nat) : List (List Color) :=
  ((evens colors).zip ((odds colors).zip steps)).filterMap
    (fun t => if t.2.2 ≠ 0 then some (f t.1 t.2.1 t.2.2) else none)

/-- Final `ListedColormap(np.vstack(chunks))` step: `np.vstack` raises `ValueError` on an
empty list, else stacks the chunks; the colormap's color list is the stacked
rows. -/
def vstackListed (chunks : List (List Color)) : Except ResampleError (List Color) :=
  if chunks = [] then .error .emptyVstack else .ok chunks.flatten

/-- The palette after the optional pairing step of `resampled`
(`colors = paired(colors, target=color_pairs.unpaired)` when `unpaired` is
set, the raw palette otherwise). -/
def effective_colors (cv : ColorConv) (cp : ColorPairs) : List Color :=
  match cp.unpaired with
  | some t => paired cv cp.map t
  | none => cp.map

/-- Source `colormaps.resampled`: resample a colormap so that each color pair is
extended to its corresponding number of steps. -/
def resampled (cv : ColorConv) (steps : StepSpec) (color_pairs : ColorPairs)
    (style : Style) : Except ResampleError (List Color) :=
  let f := style.value cv
  let colors := effective_colors cv color_pairs
  match steps with
  | .list l =>
    if colors.length / 2 < l.length then .error .insufficientPalette
    else vstackListed (chunksFor f colors l)
  | .dict d =>
    if d = [] then .error .emptyMaxArg
    else if colors.length / 2 < (d.map Prod.fst).foldr max 0 + 1 then
      .error .insufficientPalette
    else
      let colors2 := d.flatMap
        (fun si => [colors.getD (2 * si.1) dfltColor, colors.getD (2 * si.1 + 1) dfltColor])
      vstackListed (chunksFor f colors2 (d.map Prod.snd))

/-- Quantity `num_needed` as computed by the palette-size check: the dict's maximum key
plus one, resp. the list's length. -/
def num_needed : StepSpec → Nat
  | .list l => l.length
  | .dict d => (d.map Prod.fst).foldr max 0 + 1

/-- The per-pair step counts in selection order (`steps` itself, resp.
`steps.values()`). -/
def selected_steps : StepSpec → List Nat
  | .list l => l
  | .dict d => d.map Prod.snd

/-- Whether `max(steps)` is defined, i.e. the spec is not an empty dict. -/
def maxDefined : StepSpec → Bool
  | .list _ => true
  | .dict d => !d.isEmpty

/-! ### Basic shape lemmas -/

lemma clip01_nonneg (x : ℚ) : 0 ≤ clip01 x := by
  unfold clip01
  rcases le_or_lt (max x 0) 1 with h | h
  · rw [min_eq_left h]; exact le_max_right x 0
  · rw [min_eq_right h.le]; exact zero_le_one

lemma clip01_le_one (x : ℚ) : clip01 x ≤ 1 := min_le_right _ _

lemma clip01_of_mem {x : ℚ} (h0 : 0 ≤ x) (h1 : x ≤ 1) : clip01 x = x := by
  unfold clip01
  rw [max_eq_left h0, min_eq_left h1]

lemma clipColor_inRange (c : Color) : inRange (clipColor c) :=
  ⟨⟨clip01_nonneg _, clip01_le_one _⟩, ⟨clip01_nonneg _, clip01_le_one _⟩,
    ⟨clip01_nonneg _, clip01_le_one _⟩⟩

lemma clipColor_of_inRange {c : Color} (h : inRange c) : clipColor c = c := by
  obtain ⟨⟨h1, h2⟩, ⟨h3, h4⟩, h5, h6⟩ := h
  unfold clipColor
  rw [clip01_of_mem h1 h2, clip01_of_mem h3 h4, clip01_of_mem h5 h6]

lemma evens_length : ∀ (l : List α), (evens l).length = (l.length + 1) / 2
  | [] => by simp [evens]
  | [_] => by simp [evens]
  | _ :: _ :: rest => by
      simp only [evens, List.length_cons, evens_length rest]
      omega

lemma odds_length : ∀ (l : List α), (odds l).length = l.length / 2
  | [] => by simp [odds]
  | [_] => by simp [odds]
  | _ :: _ :: rest => by
      simp only [odds, List.length_cons, odds_length rest]
      omega

lemma linspace_length (a b : Color) (num : Nat) : (linspace a b num).length = num := by
  unfold linspace
  split
  · rw [List.length_map, List.length_range]
  · rw [List.length_map, List.length_range]

lemma gradient_length (cv : ColorConv) (a b : Color) (steps : Nat) :
    (gradient cv a b steps).length = steps := by
  unfold gradient
  rw [List.length_map, linspace_length]

lemma alternate_zero (a b : α) : alternate a b 0 = [] := rfl

lemma alternate_one (a b : α) : alternate a b 1 = [a] := rfl

lemma alternate_succ_succ (a b : α) (m : Nat) :
    alternate a b (m + 2) = a :: b :: alternate a b m := by
  unfold alternate
  have h : (m + 2 + 1) / 2 = (m + 1) / 2 + 1 := by omega
  rw [h, List.replicate_succ, List.flatten_cons]
  rfl

lemma alternate_eq_range_map (a b : α) :
    ∀ num, alternate a b num = (List.range num).map (fun i => if i % 2 = 0 then a else b)
  | 0 => rfl
  | 1 => by simp [alternate, List.range_succ]
  | m + 2 => by
      rw [alternate_succ_succ, alternate_eq_range_map a b m]
      rw [List.range_succ_eq_map, List.range_succ_eq_map]
      simp only [List.map_cons, List.map_map]
      refine congrArg₂ List.cons (by norm_num) (congrArg₂ List.cons (by norm_num) ?_)
      refine List.map_congr_left (fun i _ => ?_)
      have h2 : Nat.succ (Nat.succ i) % 2 = i % 2 := by omega
      simp [Function.comp, h2]

lemma alternate_length (a b : α) (num : Nat) : (alternate a b num).length = num := by
  rw [alternate_eq_range_map]
  simp

lemma hatch_length (a b : Color) (steps : Nat) : (hatch a b steps).length = steps :=
  alternate_length a b steps

/-! ### Chunk assembly lemmas -/

lemma chunksFor_nil_right (f : Color → Color → Nat → List Color) (colors : List Color) :
    chunksFor f colors [] = [] := by
  unfold chunksFor
  rw [List.zip_nil_right, List.zip_nil_right]
  rfl

lemma chunksFor_cons (f : Color → Color → Nat → List Color) (c1 c2 : Color)
    (colors : List Color) (s : Nat) (ss : List Nat) :
    chunksFor f (c1 :: c2 :: colors) (s :: ss)
      = (if s ≠ 0 then [f c1 c2 s] else []) ++ chunksFor f colors ss := by
  unfold chunksFor
  rw [show evens (c1 :: c2 :: colors) = c1 :: evens colors from rfl]
  rw [show odds (c1 :: c2 :: colors) = c2 :: odds colors from rfl]
  rw [List.zip_cons_cons, List.zip_cons_cons, List.filterMap_cons]
  by_cases h : s = 0 <;> simp [h]

lemma chunksFor_eq_nil_of_all_zero (f : Color → Color → Nat → List Color)
    (colors : List Color) (ss : List Nat) (h : ∀ s ∈ ss, s = 0) :
    chunksFor f colors ss = [] := by
  unfold chunksFor
  rw [List.filterMap_eq_nil_iff]
  rintro ⟨a, b, s⟩ ht
  have hs : s ∈ ss := (List.of_mem_zip (List.of_mem_zip ht).2).2
  simp [h s hs]

lemma chunksFor_flatten_length (f : Color → Color → Nat → List Color)
    (hf : ∀ a b s, (f a b s).length = s) :
    ∀ (ss : List Nat) (colors : List Color), ss.length ≤ colors.length / 2 →
      ((chunksFor f colors ss).flatten).length = (ss.filter (fun s => s ≠ 0)).sum
  | [], colors, _ => by rw [chunksFor_nil_right]; rfl
  | s :: ss, [], h => by simp at h
  | s :: ss, [c], h => by
      simp only [List.length_cons, List.length_nil] at h; omega
  | s :: ss, c1 :: c2 :: rest, h => by
      have h' : ss.length ≤ rest.length / 2 := by
        simp only [List.length_cons] at h; omega
      rw [chunksFor_cons]
      by_cases hs : s = 0
      · simp [hs, chunksFor_flatten_length f hf ss rest h']
      · simp [hs, chunksFor_flatten_length f hf ss rest h', hf]

lemma chunksFor_ne_nil (f : Color → Color → Nat → List Color) :
    ∀ (ss : List Nat) (colors : List Color), ss.length ≤ colors.length / 2 →
      (∃ s ∈ ss, s ≠ 0) → chunksFor f colors ss ≠ []
  | [], _, _, hex => by simp at hex
  | s :: ss, [], h, _ => by simp at h
  | s :: ss, [c], h, _ => by
      simp only [List.length_cons, List.length_nil] at h; omega
  | s :: ss, c1 :: c2 :: rest, h, hex => by
      have h' : ss.length ≤ rest.length / 2 := by
        simp only [List.length_cons] at h; omega
      rw [chunksFor_cons]
      by_cases hs : s = 0
      · rcases hex with ⟨s', hs', hne⟩
        rw [List.mem_cons] at hs'
        rcases hs' with rfl | hs'
        · exact absurd hs hne
        · rw [hs, if_neg (by simp), List.nil_append]
          exact chunksFor_ne_nil f ss rest h' ⟨s', hs', hne⟩
      · simp [hs]

lemma chunksFor_flatMap_pairs (f : Color → Color → Nat → List Color)
    (u v : Nat × Nat → Color) :
    ∀ (d : List (Nat × Nat)),
      chunksFor f (d.flatMap (fun p => [u p, v p])) (d.map Prod.snd)
        = d.filterMap (fun p => if p.2 ≠ 0 then some (f (u p) (v p) p.2) else none)
  | [] => by rw [List.map_nil, chunksFor_nil_right]; rfl
  | p :: d => by
      rw [List.flatMap_cons, List.map_cons,
        show ([u p, v p] ++ d.flatMap (fun p => [u p, v p]))
          = u p :: v p :: d.flatMap (fun p => [u p, v p]) from rfl,
        chunksFor_cons, chunksFor_flatMap_pairs f u v d, List.filterMap_cons]
      by_cases h : p.2 = 0 <;> simp [h]

/-! ### Interleaving lemmas -/

lemma flatMap_two_length (u v : α → β) (l : List α) :
    (l.flatMap (fun x => [u x, v x])).length = 2 * l.length := by
  induction l with
  | nil => rfl
  | cons x l ih => rw [List.flatMap_cons]; simp only [List.length_append, List.length_cons,
      List.length_nil, ih, List.length_cons]; omega

lemma evens_zip_flatMap_pair :
    ∀ (l1 l2 : List α), l1.length = l2.length →
      evens ((l1.zip l2).flatMap (fun p => [p.1, p.2])) = l1
  | [], l2, _ => by rw [List.zip_nil_left]; rfl
  | a :: l1, [], h => by simp at h
  | a :: l1, b :: l2, h => by
      rw [List.zip_cons_cons, List.flatMap_cons,
        show ([a, b] ++ (l1.zip l2).flatMap (fun p => [p.1, p.2]))
          = a :: b :: (l1.zip l2).flatMap (fun p => [p.1, p.2]) from rfl,
        show evens (a :: b :: (l1.zip l2).flatMap (fun p => [p.1, p.2]))
          = a :: evens ((l1.zip l2).flatMap (fun p => [p.1, p.2])) from rfl,
        evens_zip_flatMap_pair l1 l2 (by simpa using h)]

lemma odds_zip_flatMap_pair :
    ∀ (l1 l2 : List α), l1.length = l2.length →
      odds ((l1.zip l2).flatMap (fun p => [p.1, p.2])) = l2
  | [], [], _ => rfl
  | [], b :: l2, h => by simp at h
  | a :: l1, [], h => by simp at h
  | a :: l1, b :: l2, h => by
      rw [List.zip_cons_cons, List.flatMap_cons,
        show ([a, b] ++ (l1.zip l2).flatMap (fun p => [p.1, p.2]))
          = a :: b :: (l1.zip l2).flatMap (fun p => [p.1, p.2]) from rfl,
        show odds (a :: b :: (l1.zip l2).flatMap (fun p => [p.1, p.2]))
          = b :: odds ((l1.zip l2).flatMap (fun p => [p.1, p.2])) from rfl,
        odds_zip_flatMap_pair l1 l2 (by simpa using h)]

lemma unpaired_target_length (cv : ColorConv) (rgb1 : List Color) (rgb2 : Color)
    (opacity : ℚ) : (unpaired_target cv rgb1 rgb2 opacity).length = rgb1.length :=
  List.length_map _ _

/-! ### Foldr-max and unfolding lemmas -/

lemma le_foldr_max (l : List Nat) (x : Nat) (h : x ∈ l) : x ≤ l.foldr max 0 := by
  induction l with
  | nil => simp at h
  | cons y l ih =>
      rw [List.mem_cons] at h
      rcases h with rfl | h
      · exact le_max_left _ _
      · exact le_trans (ih h) (le_max_right _ _)

lemma foldr_max_le (l : List Nat) (k : Nat) (h : ∀ x ∈ l, x ≤ k) : l.foldr max 0 ≤ k := by
  induction l with
  | nil => simp
  | cons y l ih =>
      simp only [List.foldr_cons]
      exact max_le (h y (by simp)) (ih fun x hx => h x (List.mem_cons_of_mem _ hx))

lemma resampled_list_eq (cv : ColorConv) (l : List Nat) (cp : ColorPairs) (style : Style) :
    resampled cv (.list l) cp style =
      if (effective_colors cv cp).length / 2 < l.length then .error .insufficientPalette
      else vstackListed (chunksFor (style.value cv) (effective_colors cv cp) l) := rfl

lemma resampled_dict_eq (cv : ColorConv) (d : List (Nat × Nat)) (cp : ColorPairs)
    (style : Style) :
    resampled cv (.dict d) cp style =
      if d = [] then .error .emptyMaxArg
      else if (effective_colors cv cp).length / 2 < (d.map Prod.fst).foldr max 0 + 1 then
        .error .insufficientPalette
      else vstackListed (chunksFor (style.value cv)
        (d.flatMap (fun si => [(effective_colors cv cp).getD (2 * si.1) dfltColor,
          (effective_colors cv cp).getD (2 * si.1 + 1) dfltColor])) (d.map Prod.snd)) := rfl

/-! ### Claim theorems: step interpolators and pairing -/

/-- Claim C4: for every pair of colors and every `steps ≥ 1`, the HATCH expansion
returns exactly `steps` entries alternating `colorA, colorB, colorA, …`
starting with `colorA` (entry `i` is `colorA` exactly for even `i`), with no
color-space conversion; in particular, for odd `steps` the last entry is
`colorA`. -/
theorem C4_hatch_alternation (colorA colorB : Color) (steps : Nat) (h : 1 ≤ steps) :
    (hatch colorA colorB steps).length = steps ∧
    hatch colorA colorB steps
      = (List.range steps).map (fun i => if i % 2 = 0 then colorA else colorB) ∧
    (steps % 2 = 1 → (hatch colorA colorB steps).getLast? = some colorA) := by
  refine ⟨hatch_length _ _ _, alternate_eq_range_map _ _ _, fun hodd => ?_⟩
  rw [hatch, alternate_eq_range_map, List.getLast?_eq_getElem?]
  have hlen : ((List.range steps).map
      (fun i => if i % 2 = 0 then colorA else colorB)).length = steps := by simp
  rw [hlen, List.getElem?_map, List.getElem?_range (by omega)]
  have heven : (steps - 1) % 2 = 0 := by omega
  simp [heven]

theorem C4_witness :
    (hatch ((1:ℚ), (0:ℚ), (0:ℚ)) ((0:ℚ), (0:ℚ), (1:ℚ)) 5).length = 5 ∧
    (hatch ((1:ℚ), (0:ℚ), (0:ℚ)) ((0:ℚ), (0:ℚ), (1:ℚ)) 5).getLast?
      = some ((1:ℚ), (0:ℚ), (0:ℚ)) :=
  ⟨(C4_hatch_alternation _ _ 5 (by decide)).1,
    (C4_hatch_alternation _ _ 5 (by decide)).2.2 (by decide)⟩

/-- Claim C5: for every `colorA`, `colorB` with all channels in 0…1 and every
`steps > 0`, expansion under either style returns exactly `steps` colors, and
every channel of every returned color lies in 0…1. -/
theorem C5_expand_length_inRange (style : Style) (cv : ColorConv) (colorA colorB : Color)
    (steps : Nat) (_hs : 0 < steps) (ha : inRange colorA) (hb : inRange colorB) :
    (style.value cv colorA colorB steps).length = steps ∧
    ∀ c ∈ style.value cv colorA colorB steps, inRange c := by
  cases style with
  | GRADIENT =>
      refine ⟨gradient_length cv colorA colorB steps, fun c hc => ?_⟩
      simp only [Style.value] at hc
      unfold gradient at hc
      rw [List.mem_map] at hc
      obtain ⟨x, _, rfl⟩ := hc
      exact clipColor_inRange _
  | HATCH =>
      refine ⟨hatch_length _ _ _, fun c hc => ?_⟩
      simp only [Style.value] at hc
      rw [hatch, alternate_eq_range_map, List.mem_map] at hc
      obtain ⟨i, _, rfl⟩ := hc
      split
      · exact ha
      · exact hb

theorem C5_witness :
    (Style.value .HATCH idConv ((0:ℚ), (0:ℚ), (0:ℚ)) ((1:ℚ), (1:ℚ), (1:ℚ)) 3).length = 3 ∧
    ∀ c ∈ Style.value .HATCH idConv ((0:ℚ), (0:ℚ), (0:ℚ)) ((1:ℚ), (1:ℚ), (1:ℚ)) 3,
      inRange c :=
  C5_expand_length_inRange .HATCH idConv _ _ 3 (by decide) (by decide) (by decide)

/-- Claim C6: GRADIENT expansion with `steps = 1` returns the one-element sequence
holding exactly `colorA` (endpoint A, the first interpolated point), for any
`colorB`, whenever the conversion round-trip restores `colorA` (as the
identity fallback does, and as the data model's 0…1 range makes the clip a
no-op). -/
theorem C6_gradient_single_step (cv : ColorConv) (colorA colorB : Color)
    (ha : inRange colorA) (hrt : cv.lab2rgb (cv.rgb2lab colorA) = colorA) :
    gradient cv colorA colorB 1 = [colorA] := by
  unfold gradient linspace
  rw [if_pos (le_refl 1), show List.range 1 = [0] from rfl]
  simp only [List.map_cons, List.map_nil]
  rw [hrt, clipColor_of_inRange ha]

theorem C6_witness :
    gradient idConv ((1:ℚ), (0:ℚ), (0:ℚ)) ((0:ℚ), (0:ℚ), (1:ℚ)) 1
      = [((1:ℚ), (0:ℚ), (0:ℚ))] :=
  C6_gradient_single_step idConv _ _ (by decide) rfl

/-- Claim C7: for every sequence of N source colors and every target, `paired`
returns a sequence of length 2N whose even positions are the original source
colors, unchanged and in order, and whose odd positions are the synthesized
partners (the rows of `unpaired_target`) of the preceding sources. -/
theorem C7_paired_interleaves (cv : ColorConv) (sources : List Color) (target : Target) :
    (paired cv sources target).length = 2 * sources.length ∧
    evens (paired cv sources target) = sources ∧
    odds (paired cv sources target)
      = unpaired_target cv sources target.color target.opacity := by
  have hlen := (unpaired_target_length cv sources target.color target.opacity).symm
  refine ⟨?_, evens_zip_flatMap_pair _ _ hlen, odds_zip_flatMap_pair _ _ hlen⟩
  show ((sources.zip (unpaired_target cv sources target.color target.opacity)).flatMap
    (fun p => [p.1, p.2])).length = 2 * sources.length
  rw [flatMap_two_length Prod.fst Prod.snd, List.length_zip, unpaired_target_length,
    Nat.min_self]

/-- Claim C8: pairing with a target of opacity 0 is the identity on each source
color: `paired` on `[c1, c2]` against `{color: white, opacity: 0}` returns
`[c1, c1, c2, c2]`, whenever the conversion round-trip restores the sources
(as the identity fallback does; the clip is a no-op on the 0…1 range). -/
theorem C8_pairing_opacity_zero (cv : ColorConv) (c1 c2 : Color)
    (h1 : inRange c1) (h2 : inRange c2)
    (r1 : cv.lab2rgb (cv.rgb2lab c1) = c1) (r2 : cv.lab2rgb (cv.rgb2lab c2) = c2) :
    paired cv [c1, c2] ⟨white, 0⟩ = [c1, c1, c2, c2] := by
  show (([c1, c2].zip (unpaired_target cv [c1, c2] white 0)).flatMap
    (fun p => [p.1, p.2])) = [c1, c1, c2, c2]
  have hu : unpaired_target cv [c1, c2] white 0 = [c1, c2] := by
    unfold unpaired_target
    simp only [List.map_cons, List.map_nil, sub_zero, one_smul, zero_smul, add_zero]
    rw [r1, r2, clipColor_of_inRange h1, clipColor_of_inRange h2]
  rw [hu]
  rfl

/-! ### Claim theorems: the resampler -/

lemma vstackListed_ne_insufficient (chunks : List (List Color)) :
    vstackListed chunks ≠ Except.error .insufficientPalette := by
  unfold vstackListed
  split <;> simp

lemma style_value_length (style : Style) (cv : ColorConv) :
    ∀ a b s, (style.value cv a b s).length = s := by
  intro a b s
  cases style
  · exact gradient_length cv a b s
  · exact hatch_length a b s

/-- Claim C2: `resampled` fails with the insufficient-palette error exactly when
`availablePairs < neededPairs`, with `availablePairs` the paired palette's
length halved (rounding down) and `neededPairs` the maximum referenced index
plus one for a dict stepSpec, resp. the stepSpec's length for a list; in all
other cases this error is not raised.  (For an empty dict `neededPairs` is
undefined — the `max()` call raises first — hence the `maxDefined`
hypothesis.) -/
theorem C2_insufficient_palette_iff (cv : ColorConv) (spec : StepSpec) (cp : ColorPairs)
    (style : Style) (h : maxDefined spec = true) :
    resampled cv spec cp style = Except.error .insufficientPalette ↔
      (effective_colors cv cp).length / 2 < num_needed spec := by
  cases spec with
  | list l =>
      rw [resampled_list_eq]
      show _ ↔ (effective_colors cv cp).length / 2 < l.length
      by_cases hc : (effective_colors cv cp).length / 2 < l.length
      · rw [if_pos hc]
        exact iff_of_true rfl hc
      · rw [if_neg hc]
        exact iff_of_false (vstackListed_ne_insufficient _) hc
  | dict d =>
      have hne : d ≠ [] := by
        cases d
        · simp [maxDefined] at h
        · simp
      rw [resampled_dict_eq, if_neg hne]
      show _ ↔ (effective_colors cv cp).length / 2 < (d.map Prod.fst).foldr max 0 + 1
      by_cases hc : (effective_colors cv cp).length / 2 < (d.map Prod.fst).foldr max 0 + 1
      · rw [if_pos hc]
        exact iff_of_true rfl hc
      · rw [if_neg hc]
        exact iff_of_false (vstackListed_ne_insufficient _) hc

theorem C2_witness :
    resampled idConv (.list [1, 1])
      ⟨[((0:ℚ), (0:ℚ), (0:ℚ)), ((1:ℚ), (1:ℚ), (1:ℚ))], none⟩ .HATCH
      = Except.error .insufficientPalette :=
  (C2_insufficient_palette_iff idConv (.list [1, 1]) _ .HATCH (by decide)).mpr (by decide)

/-- Claim C9: a dict entry with step count 0 still counts toward the
palette-sufficiency requirement: whenever the maximum key `k` (even one whose
entry is `(k, 0)`, contributing no colors) satisfies
`availablePairs < k + 1`, `resampled` raises the insufficient-palette
error. -/
theorem C9_zero_steps_count_for_palette_check (cv : ColorConv) (cp : ColorPairs)
    (style : Style) (d : List (Nat × Nat)) (k : Nat)
    (hmem : (k, 0) ∈ d) (hub : ∀ p ∈ d, p.1 ≤ k)
    (hlt : (effective_colors cv cp).length / 2 < k + 1) :
    resampled cv (.dict d) cp style = Except.error .insufficientPalette := by
  have hne : d ≠ [] := List.ne_nil_of_mem hmem
  have hmax : (d.map Prod.fst).foldr max 0 = k := by
    refine le_antisymm (foldr_max_le _ _ ?_) (le_foldr_max _ _ ?_)
    · intro x hx
      rw [List.mem_map] at hx
      obtain ⟨p, hp, rfl⟩ := hx
      exact hub p hp
    · exact List.mem_map_of_mem Prod.fst hmem
  rw [resampled_dict_eq, if_neg hne, hmax, if_pos hlt]

theorem C9_witness :
    resampled idConv (.dict [(1, 0)])
      ⟨[((0:ℚ), (0:ℚ), (0:ℚ)), ((1:ℚ), (1:ℚ), (1:ℚ))], none⟩ .GRADIENT
      = Except.error .insufficientPalette :=
  C9_zero_steps_count_for_palette_check idConv _ .GRADIENT [(1, 0)] 1
    (by decide) (by decide) (by decide)

/-- Claim C3: for an index-keyed (dict) stepSpec that passes the checks, `resampled`
assembles exactly one expansion per dict entry, in the dict's iteration
(insertion) order — entry `(i, s)` expands pair `i` (palette rows `2i` and
`2i + 1`) to `s` colors, entries with `s = 0` are dropped, and pairs not
referenced by any key contribute nothing. -/
theorem C3_dict_insertion_order (cv : ColorConv) (cp : ColorPairs) (style : Style)
    (d : List (Nat × Nat)) (hne : d ≠ [])
    (hsuff : ¬ ((effective_colors cv cp).length / 2 < (d.map Prod.fst).foldr max 0 + 1)) :
    resampled cv (.dict d) cp style
      = vstackListed (d.filterMap (fun p => if p.2 ≠ 0 then
          some (style.value cv ((effective_colors cv cp).getD (2 * p.1) dfltColor)
            ((effective_colors cv cp).getD (2 * p.1 + 1) dfltColor) p.2)
          else none)) := by
  rw [resampled_dict_eq, if_neg hne, if_neg hsuff]
  rw [chunksFor_flatMap_pairs (style.value cv)
    (fun si => (effective_colors cv cp).getD (2 * si.1) dfltColor)
    (fun si => (effective_colors cv cp).getD (2 * si.1 + 1) dfltColor) d]

theorem C3_witness :
    resampled idConv (.dict [(2, 3), (0, 2)])
      ⟨[((1:ℚ), (0:ℚ), (0:ℚ)), ((0:ℚ), (1:ℚ), (0:ℚ)), ((0:ℚ), (0:ℚ), (1:ℚ)),
        ((1:ℚ), (1:ℚ), (0:ℚ)), ((1:ℚ), (0:ℚ), (1:ℚ)), ((0:ℚ), (1:ℚ), (1:ℚ))], none⟩ .HATCH
      = Except.ok [((1:ℚ), (0:ℚ), (1:ℚ)), ((0:ℚ), (1:ℚ), (1:ℚ)), ((1:ℚ), (0:ℚ), (1:ℚ)),
          ((1:ℚ), (0:ℚ), (0:ℚ)), ((0:ℚ), (1:ℚ), (0:ℚ))] :=
  (C3_dict_insertion_order idConv _ .HATCH [(2, 3), (0, 2)]
    (by decide) (by decide)).trans (by decide)

/-- Claim C1 (counterexample): the stepSpec `[0]` passes the palette-sufficiency
check, yet `resampled` raises (`np.vstack` on the empty chunk list) instead of
returning the empty colormap the claim's length formula would demand. -/
theorem C1_counterexample :
    num_needed (.list [0])
      ≤ (effective_colors idConv
          ⟨[((0:ℚ), (0:ℚ), (0:ℚ)), ((1:ℚ), (1:ℚ), (1:ℚ))], none⟩).length / 2 ∧
    resampled idConv (.list [0])
      ⟨[((0:ℚ), (0:ℚ), (0:ℚ)), ((1:ℚ), (1:ℚ), (1:ℚ))], none⟩ .GRADIENT
      = Except.error .emptyVstack := by decide

/-- Claim C1 (amended): for every stepSpec that passes the palette-sufficiency check
and has at least one nonzero step count among the selected pairs, `resampled`
returns a colormap whose length is the sum of the non-zero step counts of the
selected pairs: every pair with step count 0 is skipped, contributing no
colors and causing no error.  (When every selected step count is 0, the final
`np.vstack` raises instead — see the counterexample.) -/
theorem C1_resampled_length (cv : ColorConv) (spec : StepSpec) (cp : ColorPairs)
    (style : Style) (hmax : maxDefined spec = true)
    (hsuff : num_needed spec ≤ (effective_colors cv cp).length / 2)
    (hnz : ∃ s ∈ selected_steps spec, s ≠ 0) :
    ∃ out, resampled cv spec cp style = Except.ok out ∧
      out.length = ((selected_steps spec).filter (fun s => s ≠ 0)).sum := by
  have hf := style_value_length style cv
  cases spec with
  | list l =>
      have hsuff' : l.length ≤ (effective_colors cv cp).length / 2 := hsuff
      have hnz' : ∃ s ∈ l, s ≠ 0 := hnz
      rw [resampled_list_eq, if_neg (Nat.not_lt.mpr hsuff')]
      unfold vstackListed
      rw [if_neg (chunksFor_ne_nil (style.value cv) l (effective_colors cv cp) hsuff' hnz')]
      exact ⟨_, rfl, chunksFor_flatten_length _ hf l _ hsuff'⟩
  | dict d =>
      have hne : d ≠ [] := by
        cases d
        · simp [maxDefined] at hmax
        · simp
      have hsuff' : (d.map Prod.fst).foldr max 0 + 1 ≤ (effective_colors cv cp).length / 2 :=
        hsuff
      have hnz' : ∃ s ∈ d.map Prod.snd, s ≠ 0 := hnz
      rw [resampled_dict_eq, if_neg hne, if_neg (Nat.not_lt.mpr hsuff')]
      have hlen2 : (d.map Prod.snd).length
          ≤ (d.flatMap (fun si => [(effective_colors cv cp).getD (2 * si.1) dfltColor,
              (effective_colors cv cp).getD (2 * si.1 + 1) dfltColor])).length / 2 := by
        rw [List.length_map, flatMap_two_length]
        omega
      unfold vstackListed
      rw [if_neg (chunksFor_ne_nil (style.value cv) (d.map Prod.snd) _ hlen2 hnz')]
      exact ⟨_, rfl, chunksFor_flatten_length _ hf (d.map Prod.snd) _ hlen2⟩

theorem C1_witness :
    ∃ out, resampled idConv (.list [2, 0, 1])
        ⟨[((1:ℚ), (0:ℚ), (0:ℚ)), ((0:ℚ), (1:ℚ), (0:ℚ)), ((0:ℚ), (0:ℚ), (1:ℚ)),
          ((1:ℚ), (1:ℚ), (0:ℚ)), ((1:ℚ), (0:ℚ), (1:ℚ)), ((0:ℚ), (1:ℚ), (1:ℚ))], none⟩ .HATCH
        = Except.ok out ∧
      out.length = ((selected_steps (.list [2, 0, 1])).filter (fun s => s ≠ 0)).sum :=
  C1_resampled_length idConv (.list [2, 0, 1]) _ .HATCH (by decide) (by decide) (by decide)

/-- Claim C10: `resampled` never returns an empty colormap: whenever every selected
step count is 0 — which covers the empty list, the empty dict (where `max()`
raises first) and all-zero stepSpecs — the call raises an error rather than
returning a zero-length color sequence. -/
theorem C10_no_empty_colormap (cv : ColorConv) (spec : StepSpec) (cp : ColorPairs)
    (style : Style) (hz : ∀ s ∈ selected_steps spec, s = 0) (out : List Color) :
    resampled cv spec cp style ≠ Except.ok out := by
  cases spec with
  | list l =>
      have hz' : ∀ s ∈ l, s = 0 := hz
      rw [resampled_list_eq]
      split
      · simp
      · rw [vstackListed, chunksFor_eq_nil_of_all_zero _ _ _ hz']
        simp
  | dict d =>
      have hz' : ∀ s ∈ d.map Prod.snd, s = 0 := hz
      rw [resampled_dict_eq]
      rcases eq_or_ne d [] with rfl | hne
      · simp
      · rw [if_neg hne]
        split
        · simp
        · rw [vstackListed, chunksFor_eq_nil_of_all_zero _ _ _ hz']
          simp

theorem C10_witness :
    resampled idConv (.list [0, 0])
      ⟨[((1:ℚ), (0:ℚ), (0:ℚ)), ((0:ℚ), (1:ℚ), (0:ℚ)), ((0:ℚ), (0:ℚ), (1:ℚ)),
        ((1:ℚ), (1:ℚ), (0:ℚ))], none⟩ .GRADIENT ≠ Except.ok [] :=
  C10_no_empty_colormap idConv (.list [0, 0]) _ .GRADIENT (by decide) []

theorem C8_witness :
    paired idConv [((1:ℚ), (0:ℚ), (0:ℚ)), ((0:ℚ), (1:ℚ), (0:ℚ))] ⟨white, 0⟩
      = [((1:ℚ), (0:ℚ), (0:ℚ)), ((1:ℚ), (0:ℚ), (0:ℚ)),
         ((0:ℚ), (1:ℚ), (0:ℚ)), ((0:ℚ), (1:ℚ), (0:ℚ))] :=
  C8_pairing_opacity_zero idConv _ _ (by decide) (by decide) rfl rfl

end FancyBarchart
